import Mathlib

/-!
Shallow embedding of the fraud-detection pipeline:
feature engineering (`processFeatures` in `src/App.tsx`), candidate
selection and the scorer stage (`analyzeFraudWithGemini` in
`src/services/geminiService.ts`), and the result merger / presentation
sampling (`topRiskyTransactions`, `scatterData` in `src/App.tsx`).

Modelling conventions:
- JavaScript numbers are modelled as rationals (`ℚ`); the claims under
  study are order/structure claims, not floating-point rounding claims.
- JavaScript objects used as string-keyed maps (`ActCodeStats`,
  `BAStats`) are modelled as association lists with `lookupEntry` /
  `setEntry` / `bumpEntry` access.
- A possibly-missing CSV field is an `Option String`; JavaScript string
  truthiness (`undefined` and `""` are falsy) is modelled explicitly.
- `Array.prototype.sort(comparator)` is modelled by a stable sort
  (`List.insertionSort`) on the corresponding relation, which matches the
  ES2019 stable-sort requirement.  Where the source sorts a state-held
  array in place (`App.tsx` `topRiskyTransactions` / `scatterData`), the
  mutation is made explicit by state-passing (`topRiskyRun`,
  `scatterDataRun` below return the value and the post-call state).
- The external scorer call is an oracle parameter
  `scorer : List ProcessedTransaction → Except String (List AIAnalysisResult)`;
  `ScorerOutcome.ok results callMade` records whether the external call
  was performed.
-/

/-- Raw CSV row as produced by the parser (`RawTransaction` in
`src/types.ts`): four text fields.  `amount` is `Option String` so that a
missing field is representable; the other fields use `""` for the falsy
(missing or empty) case. -/
structure RawTransaction where
  BA : String
  monthly : String
  actCode : String
  amount : Option String
deriving Repr, DecidableEq, Inhabited

/-- Per-activity-code aggregate (`ActCodeStats` entry in `src/types.ts`). -/
structure Stat where
  totalAmount : ℚ
  count : ℕ
  average : ℚ
deriving Repr, DecidableEq, Inhabited

/-- Processed transaction (`ProcessedTransaction` in `src/types.ts`;
the optional AI-result fields are never assigned before the merge and are
modelled by the separate `FinalRecord`). -/
structure ProcessedTransaction where
  id : ℕ
  BA : String
  monthly : String
  actCode : String
  amount : ℚ
  baTransactionCount : ℕ
  actCodeAvgAmount : ℚ
  deviationFromAvg : ℚ
  isSuspiciousCandidate : Bool
deriving Repr, DecidableEq, Inhabited

/-- Scorer output element (`AIAnalysisResult` in `src/types.ts`). -/
structure AIAnalysisResult where
  id : ℕ
  fraudScore : ℚ
  reason : String
deriving Repr, DecidableEq, Inhabited

/-- Merged record (`{...original, ...res}` in `topRiskyTransactions`):
all `ProcessedTransaction` fields, with `id` overwritten by the score
result's `id` and the scoring fields added. -/
structure FinalRecord where
  id : ℕ
  BA : String
  monthly : String
  actCode : String
  amount : ℚ
  baTransactionCount : ℕ
  actCodeAvgAmount : ℚ
  deviationFromAvg : ℚ
  isSuspiciousCandidate : Bool
  fraudScore : ℚ
  reason : String
deriving Repr, DecidableEq, Inhabited

/-- Association-list model of a JavaScript string-keyed object. -/
abbrev ActCodeStats := List (String × Stat)

/-- Association-list model of the business-area frequency object. -/
abbrev BAStats := List (String × ℕ)

/-- Property read `obj[key]` on a string-keyed object. -/
def lookupEntry {β : Type} : List (String × β) → String → Option β
  | [], _ => none
  | (k, v) :: t, key => if key = k then some v else lookupEntry t key

/-- Property write `obj[key] = v` on a string-keyed object. -/
def setEntry {β : Type} (key : String) (v : β) : List (String × β) → List (String × β)
  | [] => [(key, v)]
  | (k, w) :: t => if key = k then (k, v) :: t else (k, w) :: setEntry key v t

/-- Ensure-then-update access: if `key` is absent install `init` first,
then apply `upd` to the entry (models `if (!obj[k]) obj[k] = zero; obj[k].f += ...`). -/
def bumpEntry {β : Type} (init : β) (upd : β → β) : List (String × β) → String → List (String × β)
  | [], key => [(key, upd init)]
  | (k, v) :: t, key => if key = k then (k, upd v) :: t else (k, v) :: bumpEntry init upd t key

/-- JavaScript truthiness of a possibly-missing string: `undefined` and
`""` are falsy. -/
def jsTruthyStr : Option String → Bool
  | none => false
  | some s => !(s == "")

/-- Comma stripping, `row.amount.replace(&#47;,&#47;g, '')`: every comma
character is removed. -/
def stripCommas (s : String) : String :=
  String.mk (s.data.filter (fun c => !(c == ',')))

/-- Numeric value of a digit string (most significant first). -/
def digitsVal (ds : List Char) : ℕ :=
  ds.foldl (fun a c => 10 * a + (c.toNat - 48)) 0

/-- Leading-whitespace predicate skipped by `parseFloat`. -/
def jsWhitespace (c : Char) : Bool :=
  c == ' ' || c == '\t' || c == '\n' || c == '\r'

/-- Optional sign at the head of a numeric literal. -/
def parseSign : List Char → ℤ × List Char
  | '-' :: rest => (-1, rest)
  | '+' :: rest => (1, rest)
  | cs => (1, cs)

/-- Optional sign of the exponent part. -/
def parseExpSign : List Char → ℤ × List Char
  | '-' :: rest => (-1, rest)
  | '+' :: rest => (1, rest)
  | cs => (1, cs)

/-- Syntactic decomposition of a JavaScript numeric literal prefix:
`(sign, integer digits value, fraction digits value, fraction length,
exponent)`, or `none` when no numeric prefix exists (the `NaN` case).
Skips leading whitespace, reads an optional sign, then the longest prefix
of the form `digits[.digits][e[±]digits]`.  Everything here is
first-order data so concrete inputs evaluate by `decide`. -/
def floatSyntax (s : String) : Option (ℤ × ℕ × ℕ × ℕ × ℤ) :=
  let cs0 := s.data.dropWhile jsWhitespace
  let sc := parseSign cs0
  let ip := sc.2.takeWhile Char.isDigit
  let cs1 := sc.2.dropWhile Char.isDigit
  let fr : List Char × List Char :=
    match cs1 with
    | '.' :: rest => (rest.takeWhile Char.isDigit, rest.dropWhile Char.isDigit)
    | _ => ([], cs1)
  if ip.isEmpty && fr.1.isEmpty then none
  else
    let exp : ℤ :=
      match fr.2 with
      | 'e' :: rest =>
        let es := parseExpSign rest
        let ed := es.2.takeWhile Char.isDigit
        if ed.isEmpty then 0 else es.1 * (digitsVal ed : ℤ)
      | 'E' :: rest =>
        let es := parseExpSign rest
        let ed := es.2.takeWhile Char.isDigit
        if ed.isEmpty then 0 else es.1 * (digitsVal ed : ℤ)
      | _ => 0
    some (sc.1, digitsVal ip, digitsVal fr.1, fr.1.length, exp)

/-- Numeric value of a decomposed literal:
`sign * (int + frac / 10 ^ fracLen) * 10 ^ exp`, exactly in `ℚ`. -/
def ratOfParts (p : ℤ × ℕ × ℕ × ℕ × ℤ) : ℚ :=
  (p.1 : ℚ) * ((p.2.1 : ℚ) + (p.2.2.1 : ℚ) / (10 : ℚ) ^ p.2.2.2.1) * (10 : ℚ) ^ p.2.2.2.2

/-- Model of JavaScript `parseFloat`: `none` models `NaN`; finite
decimal/exponent values are represented exactly in `ℚ`. -/
def jsParseFloat (s : String) : Option ℚ :=
  (floatSyntax s).map ratOfParts

/-- JavaScript `x || 0` applied to a `parseFloat` result: `NaN` (here
`none`) becomes `0`; the falsy number `0` maps to `0` as well, so `getD 0`
is exact. -/
def jsOr0 (o : Option ℚ) : ℚ := o.getD 0

/-- Amount text selected by `row.amount ? row.amount.replace(...) : "0"`
(`src/App.tsx` lines 57 and 85): a falsy field yields `"0"`, otherwise the
comma-stripped text. -/
def amountText (amt : Option String) : String :=
  match amt with
  | none => "0"
  | some s => if s = "" then "0" else stripCommas s

/-- Parsed amount, `parseFloat(amountStr) || 0`: a total function from the
amount field to a number. -/
def parseAmountField (amt : Option String) : ℚ :=
  jsOr0 (jsParseFloat (amountText amt))

/-- Skip condition shared by both passes (`if (!actCode || !ba) return`). -/
def skipRow (row : RawTransaction) : Bool :=
  row.actCode == "" || row.BA == ""

/-- Aggregate update applied to an activity-code entry in pass 1:
`totalAmount += amount; count += 1`. -/
def updStat (amount : ℚ) (v : Stat) : Stat :=
  { v with totalAmount := v.totalAmount + amount, count := v.count + 1 }

/-- The zero aggregate installed when a code is first seen. -/
def zeroStat : Stat := { totalAmount := 0, count := 0, average := 0 }

/-- Pass-1 update of `actCodeStats` for one surviving row. -/
def bumpStat (m : ActCodeStats) (code : String) (amount : ℚ) : ActCodeStats :=
  bumpEntry zeroStat (updStat amount) m code

/-- Pass-1 update of `baStats` for one surviving row:
`baStats[ba] = (baStats[ba] || 0) + 1`. -/
def bumpBA (m : BAStats) (ba : String) : BAStats :=
  setEntry ba ((lookupEntry m ba).getD 0 + 1) m

/-- One step of the pass-1 fold over the raw rows (`src/App.tsx` lines
56-73): parse the amount, skip rows with a falsy `actCode` or `BA`,
otherwise accumulate into both aggregate maps. -/
def pass1Step (acc : ActCodeStats × BAStats) (row : RawTransaction) : ActCodeStats × BAStats :=
  if skipRow row then acc
  else (bumpStat acc.1 row.actCode (parseAmountField row.amount), bumpBA acc.2 row.BA)

/-- Pass 1: fold over all raw rows starting from empty maps. -/
def pass1 (data : List RawTransaction) : ActCodeStats × BAStats :=
  data.foldl pass1Step ([], [])

/-- Average finalization (`src/App.tsx` lines 76-79): every entry gets
`average = totalAmount / count`. -/
def finalizeAverages (m : ActCodeStats) : ActCodeStats :=
  m.map (fun kv => (kv.1, { kv.2 with average := kv.2.totalAmount / (kv.2.count : ℚ) }))

/-- The finalized activity-code aggregates for an upload. -/
def finalStats (data : List RawTransaction) : ActCodeStats :=
  finalizeAverages (pass1 data).1

/-- The business-area frequency map for an upload. -/
def baFreq (data : List RawTransaction) : BAStats :=
  (pass1 data).2

/-- Category-average lookup, `actCodeStats[row.actCode]?.average || 0`:
`0` when the category is absent. -/
def lookupAvg (acs : ActCodeStats) (code : String) : ℚ :=
  ((lookupEntry acs code).map Stat.average).getD 0

/-- JavaScript comparison `obj[key] > k` where the property may be absent:
`undefined > k` is false. -/
def jsGtNat (o : Option ℕ) (k : ℕ) : Bool :=
  match o with
  | none => false
  | some n => decide (k < n)

/-- Construction of one `ProcessedTransaction` in pass 2 (`src/App.tsx`
lines 85-109), for the row at original index `i`. -/
def buildRecord (acs : ActCodeStats) (bas : BAStats) (i : ℕ) (row : RawTransaction) :
    ProcessedTransaction :=
  let amt := parseAmountField row.amount
  let avg := lookupAvg acs row.actCode
  let deviation : ℚ := if avg = 0 then 0 else amt / avg
  let suspicious : Bool :=
    decide (3 < deviation) || (jsGtNat (lookupEntry bas row.BA) 100 && decide (2 < deviation))
  { id := i
    BA := row.BA
    monthly := row.monthly
    actCode := row.actCode
    amount := amt
    baTransactionCount := (lookupEntry bas row.BA).getD 0
    actCodeAvgAmount := avg
    deviationFromAvg := deviation
    isSuspiciousCandidate := suspicious }

/-- Pass-2 treatment of a single row: `none` when the row is skipped. -/
def mkProcessed (acs : ActCodeStats) (bas : BAStats) (i : ℕ) (row : RawTransaction) :
    Option ProcessedTransaction :=
  if skipRow row then none else some (buildRecord acs bas i row)

/-- Pass 2 (`data.forEach((row, index) => ...)`): walk the raw rows with
their original index `n`, pushing one record per surviving row. -/
def pass2 (acs : ActCodeStats) (bas : BAStats) : ℕ → List RawTransaction → List ProcessedTransaction
  | _, [] => []
  | n, row :: rest =>
    match mkProcessed acs bas n row with
    | some r => r :: pass2 acs bas (n + 1) rest
    | none => pass2 acs bas (n + 1) rest

/-- The Feature Engine, `processFeatures` in `src/App.tsx`: pass 1,
average finalization, then pass 2 over the same raw sequence. -/
def processFeatures (data : List RawTransaction) : List ProcessedTransaction :=
  pass2 (finalStats data) (baFreq data) 0 data

/-- Descending order on deviation ratio: the comparator
`(a, b) => b.deviationFromAvg - a.deviationFromAvg`. -/
def devGE (a b : ProcessedTransaction) : Prop :=
  b.deviationFromAvg ≤ a.deviationFromAvg

instance : DecidableRel devGE :=
  fun a b => inferInstanceAs (Decidable (b.deviationFromAvg ≤ a.deviationFromAvg))

instance : IsTotal ProcessedTransaction devGE :=
  ⟨fun a b => le_total b.deviationFromAvg a.deviationFromAvg⟩

instance : IsTrans ProcessedTransaction devGE :=
  ⟨fun _ _ _ hab hbc => le_trans hbc hab⟩

/-- Descending order on fraud score: the comparator
`(a, b) => b.fraudScore - a.fraudScore`. -/
def scoreGE (a b : AIAnalysisResult) : Prop :=
  b.fraudScore ≤ a.fraudScore

instance : DecidableRel scoreGE :=
  fun a b => inferInstanceAs (Decidable (b.fraudScore ≤ a.fraudScore))

instance : IsTotal AIAnalysisResult scoreGE :=
  ⟨fun a b => le_total b.fraudScore a.fraudScore⟩

instance : IsTrans AIAnalysisResult scoreGE :=
  ⟨fun _ _ _ hab hbc => le_trans hbc hab⟩

/-- Descending order on fraud score for merged records. -/
def finGE (a b : FinalRecord) : Prop :=
  b.fraudScore ≤ a.fraudScore

/-- Descending order on amount: the comparator `(a, b) => b.amount - a.amount`. -/
def amountGE (a b : ProcessedTransaction) : Prop :=
  b.amount ≤ a.amount

instance : DecidableRel amountGE :=
  fun a b => inferInstanceAs (Decidable (b.amount ≤ a.amount))

instance : IsTotal ProcessedTransaction amountGE :=
  ⟨fun a b => le_total b.amount a.amount⟩

instance : IsTrans ProcessedTransaction amountGE :=
  ⟨fun _ _ _ hab hbc => le_trans hbc hab⟩

/-- Candidate Selector (`src/services/geminiService.ts` lines 9-12):
filter flagged records, sort by deviation descending, take the first 30. -/
def selectCandidates (ts : List ProcessedTransaction) : List ProcessedTransaction :=
  ((ts.filter (fun t => t.isSuspiciousCandidate)).insertionSort devGE).take 30

/-- Outcome of the scorer stage.  `ok results callMade` carries whether
the external request was constructed and sent; `configError` models the
thrown missing-credential error; `callError` models a rethrown API
failure. -/
inductive ScorerOutcome where
  | ok (results : List AIAnalysisResult) (callMade : Bool)
  | configError (msg : String)
  | callError (msg : String)
deriving Repr, DecidableEq

/-- Scorer stage, `analyzeFraudWithGemini` in
`src/services/geminiService.ts`: select candidates; with zero candidates
return `[]` without touching the environment or the network; otherwise
check the API key (falsy key throws the configuration error) and invoke
the external scorer. -/
def analyzeFraudWithGemini (apiKey : Option String)
    (scorer : List ProcessedTransaction → Except String (List AIAnalysisResult))
    (transactions : List ProcessedTransaction) : ScorerOutcome :=
  let candidates := selectCandidates transactions
  if candidates.length = 0 then .ok [] false
  else if !(jsTruthyStr apiKey) then
    .configError "API Key not found. Please configure environment variables."
  else
    match scorer candidates with
    | .ok results => .ok results true
    | .error e => .callError e

/-- Merged record `{...original, ...res}`: the score result's fields
(`id`, `fraudScore`, `reason`) overwrite/extend the processed record. -/
def mergeRecord (p : ProcessedTransaction) (res : AIAnalysisResult) : FinalRecord :=
  { id := res.id
    BA := p.BA
    monthly := p.monthly
    actCode := p.actCode
    amount := p.amount
    baTransactionCount := p.baTransactionCount
    actCodeAvgAmount := p.actCodeAvgAmount
    deviationFromAvg := p.deviationFromAvg
    isSuspiciousCandidate := p.isSuspiciousCandidate
    fraudScore := res.fraudScore
    reason := res.reason }

/-- Join of one score result against the processed records:
`processedData.find(p => p.id === res.id)` then merge, `none` when no
processed record matches. -/
def mergeMap (pd : List ProcessedTransaction) (res : AIAnalysisResult) : Option FinalRecord :=
  (pd.find? (fun p => p.id == res.id)).map (fun orig => mergeRecord orig res)

/-- Result Merger, `topRiskyTransactions` in `src/App.tsx` lines 161-172:
sort the score results descending by score, join each against the
processed records, drop the misses. -/
def topRiskyTransactions (pd : List ProcessedTransaction) (ar : List AIAnalysisResult) :
    List FinalRecord :=
  if ar.length = 0 then []
  else (ar.insertionSort scoreGE).filterMap (mergeMap pd)

/-- Component state relevant to the memoized views: the two state arrays
they read (and, through in-place `Array.prototype.sort`, write). -/
structure AppState where
  processedData : List ProcessedTransaction
  analysisResults : List AIAnalysisResult
deriving Repr, DecidableEq

/-- Effectful model of `topRiskyTransactions`: `analysisResults.sort(...)`
sorts the state array in place, so the post-call state carries the sorted
array. -/
def topRiskyRun (s : AppState) : List FinalRecord × AppState :=
  if s.analysisResults.length = 0 then ([], s)
  else
    let sorted := s.analysisResults.insertionSort scoreGE
    (sorted.filterMap (mergeMap s.processedData), { s with analysisResults := sorted })

/-- Scatter-plot point produced by `scatterData`. -/
structure ScatterPoint where
  name : String
  x : String
  y : ℚ
  z : ℚ
  risk : String
deriving Repr, DecidableEq

/-- Effectful model of `scatterData` (`src/App.tsx` lines 174-186):
`processedData.sort(...)` sorts the state array in place (amount
descending), then the first 500 entries are projected to chart points. -/
def scatterDataRun (s : AppState) : List ScatterPoint × AppState :=
  let sorted := s.processedData.insertionSort amountGE
  ((sorted.take 500).map (fun d =>
      { name := d.BA
        x := d.actCode
        y := d.amount
        z := d.deviationFromAvg
        risk := if d.isSuspiciousCandidate then "High" else "Normal" }),
   { s with processedData := sorted })

/-! ### Concrete sample inputs used by witness theorems -/

/-- Sample upload: two surviving rows (original indices 0 and 2) around a
skipped row (missing activity code). -/
def wData : List RawTransaction :=
  [⟨"A", "m0", "X", some "100"⟩, ⟨"A", "m1", "", some "50"⟩, ⟨"A", "m2", "X", some "300"⟩]

/-- The processed record produced for `wData` row 0
(category average 200, deviation 1/2). -/
def wRec0 : ProcessedTransaction := ⟨0, "A", "m0", "X", 100, 2, 200, 1/2, false⟩

/-- The processed record produced for `wData` row 2
(category average 200, deviation 3/2). -/
def wRec2 : ProcessedTransaction := ⟨2, "A", "m2", "X", 300, 2, 200, 3/2, false⟩

/-- Sample flagged record with deviation 2. -/
def cRecA : ProcessedTransaction := ⟨0, "A", "m", "X", 10, 1, 5, 2, true⟩

/-- Sample flagged record with deviation 6. -/
def cRecB : ProcessedTransaction := ⟨1, "B", "m", "X", 30, 1, 5, 6, true⟩

/-- Sample unflagged record. -/
def cRecC : ProcessedTransaction := ⟨2, "C", "m", "X", 1, 1, 5, 1/5, false⟩

/-- Sample processed sequence with two candidates and one non-candidate. -/
def wTs : List ProcessedTransaction := [cRecA, cRecB, cRecC]

/-- Sample processed sequence with no candidate at all. -/
def wNone : List ProcessedTransaction := [cRecC]

/-- Sample score result with a low score for id 0. -/
def wScore0 : AIAnalysisResult := ⟨0, 0, "r0"⟩

/-- Sample score result with a high score for id 1. -/
def wScore1 : AIAnalysisResult := ⟨1, 1, "r1"⟩

/-- Sample score result whose id matches no processed record. -/
def wScore9 : AIAnalysisResult := ⟨9, 1, "r9"⟩

/-- Sample score sequence: ascending scores, one unmatched id. -/
def wScores : List AIAnalysisResult := [wScore0, wScore9, wScore1]

/-- Sample component state in which neither state array is already sorted
in the respective descending order. -/
def exState : AppState :=
  { processedData := [cRecA, cRecB], analysisResults := [wScore0, wScore1] }

/-- A trivial scorer oracle for witness instantiation. -/
def wScorer : List ProcessedTransaction → Except String (List AIAnalysisResult) :=
  fun _ => Except.ok []

/-! ### Association-list lemmas -/

theorem lookupEntry_setEntry_self {β : Type} (m : List (String × β)) (key : String) (v : β) :
    lookupEntry (setEntry key v m) key = some v := by
  induction m with
  | nil => simp [setEntry, lookupEntry]
  | cons kv t ih =>
    obtain ⟨k, w⟩ := kv
    by_cases h : key = k
    · simp [setEntry, lookupEntry, h]
    · simp [setEntry, lookupEntry, h, ih]

theorem lookupEntry_setEntry_ne {β : Type} (m : List (String × β)) (key k' : String) (v : β)
    (h : k' ≠ key) : lookupEntry (setEntry key v m) k' = lookupEntry m k' := by
  induction m with
  | nil => simp [setEntry, lookupEntry, h]
  | cons kv t ih =>
    obtain ⟨k, w⟩ := kv
    by_cases hk : key = k
    · subst hk
      simp [setEntry, lookupEntry, h]
    · by_cases hk' : k' = k
      · simp [setEntry, lookupEntry, hk, hk']
      · simp [setEntry, lookupEntry, hk, hk', ih]

theorem lookupEntry_bumpEntry_self {β : Type} (init : β) (upd : β → β)
    (m : List (String × β)) (key : String) :
    lookupEntry (bumpEntry init upd m key) key =
      some (upd ((lookupEntry m key).getD init)) := by
  induction m with
  | nil => simp [bumpEntry, lookupEntry]
  | cons kv t ih =>
    obtain ⟨k, w⟩ := kv
    by_cases h : key = k
    · simp [bumpEntry, lookupEntry, h]
    · simp [bumpEntry, lookupEntry, h, ih]

theorem lookupEntry_bumpEntry_ne {β : Type} (init : β) (upd : β → β)
    (m : List (String × β)) (key k' : String) (h : k' ≠ key) :
    lookupEntry (bumpEntry init upd m key) k' = lookupEntry m k' := by
  induction m with
  | nil => simp [bumpEntry, lookupEntry, h]
  | cons kv t ih =>
    obtain ⟨k, w⟩ := kv
    by_cases hk : key = k
    · subst hk
      simp [bumpEntry, lookupEntry, h]
    · by_cases hk' : k' = k
      · simp [bumpEntry, lookupEntry, hk, hk']
      · simp [bumpEntry, lookupEntry, hk, hk', ih]

theorem lookupEntry_finalizeAverages (m : ActCodeStats) (key : String) :
    lookupEntry (finalizeAverages m) key =
      (lookupEntry m key).map
        (fun v => { v with average := v.totalAmount / (v.count : ℚ) }) := by
  induction m with
  | nil => simp [finalizeAverages, lookupEntry]
  | cons kv t ih =>
    obtain ⟨k, w⟩ := kv
    by_cases h : key = k
    · simp [finalizeAverages, lookupEntry, h]
    · simpa [finalizeAverages, lookupEntry, h] using ih

/-! ### Pass-1 invariants -/

/-- Every aggregate entry ever created has a positive count. -/
def statsPos (m : ActCodeStats) : Prop :=
  ∀ k v, lookupEntry m k = some v → 1 ≤ v.count

theorem statsPos_nil : statsPos [] := by
  intro k v h
  simp [lookupEntry] at h

theorem statsPos_bumpStat {m : ActCodeStats} (hm : statsPos m) (code : String) (a : ℚ) :
    statsPos (bumpStat m code a) := by
  intro k v h
  by_cases hk : k = code
  · subst hk
    rw [bumpStat, lookupEntry_bumpEntry_self] at h
    cases h
    simp [updStat]
  · rw [bumpStat, lookupEntry_bumpEntry_ne _ _ _ _ _ hk] at h
    exact hm k v h

theorem statsPos_pass1Step {acc : ActCodeStats × BAStats} (hm : statsPos acc.1)
    (row : RawTransaction) : statsPos (pass1Step acc row).1 := by
  rw [pass1Step]
  by_cases h : skipRow row
  · simpa [h] using hm
  · simpa [h] using statsPos_bumpStat hm _ _

theorem statsPos_foldl (data : List RawTransaction) :
    ∀ acc : ActCodeStats × BAStats, statsPos acc.1 →
      statsPos (data.foldl pass1Step acc).1 := by
  induction data with
  | nil => intro acc h; simpa using h
  | cons row rest ih =>
    intro acc h
    rw [List.foldl_cons]
    exact ih _ (statsPos_pass1Step h row)

theorem statsPos_pass1 (data : List RawTransaction) : statsPos (pass1 data).1 :=
  statsPos_foldl data ([], []) statsPos_nil

/-- Presence of an activity-code entry is preserved by one pass-1 step. -/
theorem lookupStat_step_mono {acc : ActCodeStats × BAStats} (row : RawTransaction)
    (k : String) (h : (lookupEntry acc.1 k).isSome) :
    (lookupEntry (pass1Step acc row).1 k).isSome := by
  rw [pass1Step]
  by_cases hs : skipRow row
  · simpa [hs] using h
  · simp only [hs]
    by_cases hk : k = row.actCode
    · subst hk
      simp [bumpStat, lookupEntry_bumpEntry_self]
    · simpa [bumpStat, lookupEntry_bumpEntry_ne _ _ _ _ _ hk] using h

theorem lookupStat_foldl_mono (data : List RawTransaction) :
    ∀ (acc : ActCodeStats × BAStats) (k : String), (lookupEntry acc.1 k).isSome →
      (lookupEntry (data.foldl pass1Step acc).1 k).isSome := by
  induction data with
  | nil => intro acc k h; simpa using h
  | cons row rest ih =>
    intro acc k h
    rw [List.foldl_cons]
    exact ih _ k (lookupStat_step_mono row k h)

/-- The business-area frequency for any key never decreases under a step. -/
theorem lookupBA_step_ge (acc : ActCodeStats × BAStats) (row : RawTransaction) (k : String) :
    (lookupEntry acc.2 k).getD 0 ≤ (lookupEntry (pass1Step acc row).2 k).getD 0 := by
  rw [pass1Step]
  by_cases hs : skipRow row
  · simp [hs]
  · simp only [hs]
    by_cases hk : k = row.BA
    · subst hk
      simp [bumpBA, lookupEntry_setEntry_self]
    · simp [bumpBA, lookupEntry_setEntry_ne _ _ _ _ hk]

theorem lookupBA_foldl_ge (data : List RawTransaction) :
    ∀ (acc : ActCodeStats × BAStats) (k : String),
      (lookupEntry acc.2 k).getD 0 ≤ (lookupEntry (data.foldl pass1Step acc).2 k).getD 0 := by
  induction data with
  | nil => intro acc k; simp
  | cons row rest ih =>
    intro acc k
    rw [List.foldl_cons]
    exact le_trans (lookupBA_step_ge acc row k) (ih _ k)

/-- A surviving row of the upload leaves both of its keys present in the
pass-1 result, with a business-area frequency of at least 1. -/
theorem present_of_mem (data : List RawTransaction) :
    ∀ (acc : ActCodeStats × BAStats) (row : RawTransaction), row ∈ data → skipRow row = false →
      (lookupEntry (data.foldl pass1Step acc).1 row.actCode).isSome ∧
        1 ≤ (lookupEntry (data.foldl pass1Step acc).2 row.BA).getD 0 := by
  induction data with
  | nil => intro acc row h; cases h
  | cons d rest ih =>
    intro acc row hmem hs
    rw [List.foldl_cons]
    rcases List.mem_cons.mp hmem with heq | htail
    · subst heq
      constructor
      · apply lookupStat_foldl_mono
        simp [pass1Step, hs, bumpStat, lookupEntry_bumpEntry_self]
      · refine le_trans ?_ (lookupBA_foldl_ge rest (pass1Step acc row) row.BA)
        simp [pass1Step, hs, bumpBA, lookupEntry_setEntry_self]
    · exact ih (pass1Step acc d) row htail hs

/-! ### Pass-2 structure -/

theorem mkProcessed_eq_some {acs : ActCodeStats} {bas : BAStats} {i : ℕ}
    {row : RawTransaction} {r : ProcessedTransaction}
    (h : mkProcessed acs bas i row = some r) :
    skipRow row = false ∧ r = buildRecord acs bas i row := by
  rw [mkProcessed] at h
  by_cases hs : skipRow row
  · simp [hs] at h
  · simp [hs] at h
    exact ⟨by simpa using hs, h.symm⟩

theorem mem_pass2 {acs : ActCodeStats} {bas : BAStats} :
    ∀ (l : List RawTransaction) (n : ℕ) (r : ProcessedTransaction),
      r ∈ pass2 acs bas n l →
      ∃ i, ∃ h : i < l.length,
        r.id = n + i ∧ mkProcessed acs bas (n + i) (l.get ⟨i, h⟩) = some r := by
  intro l
  induction l with
  | nil => intro n r h; cases h
  | cons row rest ih =>
    intro n r h
    rw [pass2] at h
    rcases hm : mkProcessed acs bas n row with _ | r'
    · rw [hm] at h
      rcases ih (n + 1) r h with ⟨i, hi, hid, hmk⟩
      refine ⟨i + 1, by simpa using Nat.succ_lt_succ hi, ?_, ?_⟩
      · omega
      · have : n + (i + 1) = n + 1 + i := by omega
        rw [this]
        simpa using hmk
    · rw [hm] at h
      rcases List.mem_cons.mp h with heq | htail
      · subst heq
        have hb := mkProcessed_eq_some hm
        refine ⟨0, by simp, ?_, ?_⟩
        · simp [hb.2, buildRecord]
        · simpa using hm
      · rcases ih (n + 1) r htail with ⟨i, hi, hid, hmk⟩
        refine ⟨i + 1, by simpa using Nat.succ_lt_succ hi, ?_, ?_⟩
        · omega
        · have : n + (i + 1) = n + 1 + i := by omega
          rw [this]
          simpa using hmk

/-! ### Evaluation helpers -/

theorem parseAmountField_eval (amt : Option String) (p : ℤ × ℕ × ℕ × ℕ × ℤ)
    (h : floatSyntax (amountText amt) = some p) :
    parseAmountField amt = ratOfParts p := by
  simp [parseAmountField, jsParseFloat, h, jsOr0]

theorem parseAmountField_eval0 (amt : Option String)
    (h : floatSyntax (amountText amt) = none) :
    parseAmountField amt = 0 := by
  simp [parseAmountField, jsParseFloat, h, jsOr0]

theorem wData_eval : processFeatures wData = [wRec0, wRec2] := by
  have h0 : parseAmountField (some "100") = 100 := by
    rw [parseAmountField_eval _ (1, 100, 0, 0, 0) (by decide)]
    norm_num [ratOfParts]
  have h2 : parseAmountField (some "300") = 300 := by
    rw [parseAmountField_eval _ (1, 300, 0, 0, 0) (by decide)]
    norm_num [ratOfParts]
  have hs0 : skipRow ⟨"A", "m0", "X", some "100"⟩ = false := by decide
  have hs1 : skipRow ⟨"A", "m1", "", some "50"⟩ = true := by decide
  have hs2 : skipRow ⟨"A", "m2", "X", some "300"⟩ = false := by decide
  norm_num [processFeatures, wData, wRec0, wRec2, pass1, pass1Step, bumpStat, bumpBA,
    bumpEntry, setEntry, lookupEntry, finalStats, baFreq, finalizeAverages, lookupAvg,
    updStat, zeroStat, pass2, mkProcessed, buildRecord, jsGtNat, h0, h2, hs0, hs1, hs2]

/-- Unpacking of membership in the Feature Engine output: every produced
record carries the original index of its source row and is exactly the
record built from that row. -/
theorem mem_processFeatures {data : List RawTransaction} {r : ProcessedTransaction}
    (h : r ∈ processFeatures data) :
    ∃ i, ∃ hlt : i < data.length,
      r.id = i ∧ skipRow (data.get ⟨i, hlt⟩) = false ∧
        r = buildRecord (finalStats data) (baFreq data) i (data.get ⟨i, hlt⟩) := by
  rcases mem_pass2 data 0 r h with ⟨i, hlt, hid, hmk⟩
  rcases mkProcessed_eq_some (by simpa using hmk) with ⟨hs, hb⟩
  exact ⟨i, hlt, by simpa using hid, hs, hb⟩

/-- Ids produced by pass 2 are exactly the original indices of the
surviving rows, in order. -/
theorem pass2_map_id (acs : ActCodeStats) (bas : BAStats) :
    ∀ (l : List RawTransaction) (n : ℕ),
      (pass2 acs bas n l).map (fun r => r.id) =
        ((List.enumFrom n l).filter (fun p => !skipRow p.2)).map (fun p => p.1) := by
  intro l
  induction l with
  | nil => intro n; simp [pass2]
  | cons row rest ih =>
    intro n
    by_cases hs : skipRow row
    · simp [pass2, mkProcessed, hs, List.enumFrom, ih]
    · simp [pass2, mkProcessed, hs, List.enumFrom, ih, buildRecord]

/-- The suspicion predicate of a single built record, by cases on the
business-area lookup (`undefined > 100` is false in JavaScript, matching
`getD 0`). -/
theorem buildRecord_isCandidate (acs : ActCodeStats) (bas : BAStats) (i : ℕ)
    (row : RawTransaction) :
    (buildRecord acs bas i row).isSuspiciousCandidate = true ↔
      (3 < (buildRecord acs bas i row).deviationFromAvg ∨
        (100 < (buildRecord acs bas i row).baTransactionCount ∧
          2 < (buildRecord acs bas i row).deviationFromAvg)) := by
  rcases hlk : lookupEntry bas row.BA with _ | n
  · simp [buildRecord, hlk, jsGtNat]
  · simp [buildRecord, hlk, jsGtNat]

/-- Claim C1: every record produced by the Feature Engine is flagged as a
candidate exactly when `deviationRatio > 3` or both
`businessAreaFrequency > 100` and `deviationRatio > 2`; the thresholds are
strict, so a record sitting exactly on 3 (or exactly on 2 with a frequent
business area) is not flagged by the corresponding clause. -/
theorem processFeatures_isCandidate_rule (data : List RawTransaction) :
    ∀ r ∈ processFeatures data,
      r.isSuspiciousCandidate = true ↔
        (3 < r.deviationFromAvg ∨
          (100 < r.baTransactionCount ∧ 2 < r.deviationFromAvg)) := by
  intro r hr
  rcases mem_processFeatures hr with ⟨i, hlt, _, _, hb⟩
  rw [hb]
  exact buildRecord_isCandidate _ _ _ _

/-- Witness for C1: the suspicion rule instantiated on the record of
`wData` row 2 (deviation 3/2, frequency 2: not a candidate). -/
theorem processFeatures_isCandidate_rule_witness :
    wRec2.isSuspiciousCandidate = true ↔
      (3 < wRec2.deviationFromAvg ∨
        (100 < wRec2.baTransactionCount ∧ 2 < wRec2.deviationFromAvg)) :=
  processFeatures_isCandidate_rule wData wRec2 (by rw [wData_eval]; simp)

/-- Claim C2: every record produced by the Feature Engine has `id` equal
to the zero-based index of its source row in the original raw sequence
(fetching the raw row at index `id` and re-processing it returns exactly
this record), and the id list is exactly the list of indices of the
surviving rows — ids of skipped rows are absent and survivors are never
renumbered. -/
theorem processFeatures_id_spec (data : List RawTransaction) :
    (∀ r ∈ processFeatures data,
        (data.get? r.id).bind (mkProcessed (finalStats data) (baFreq data) r.id) = some r) ∧
      (processFeatures data).map (fun r => r.id) =
        (data.enum.filter (fun p => !skipRow p.2)).map (fun p => p.1) := by
  constructor
  · intro r hr
    rcases mem_processFeatures hr with ⟨i, hlt, hid, hs, hb⟩
    rw [hid, List.get?_eq_get hlt]
    have hs2 : skipRow (data[i]) = false := hs
    simp [mkProcessed, hs2, hb]
  · simpa using pass2_map_id (finalStats data) (baFreq data) data 0

/-- Witness for C2: on `wData`, re-processing row `wRec2.id = 2` returns
`wRec2`, and the produced id list is `[0, 2]` (index 1 was skipped). -/
theorem processFeatures_id_spec_witness :
    (wData.get? wRec2.id).bind (mkProcessed (finalStats wData) (baFreq wData) wRec2.id) =
      some wRec2 ∧
      (processFeatures wData).map (fun r => r.id) = [0, 2] :=
  ⟨(processFeatures_id_spec wData).1 wRec2 (by rw [wData_eval]; simp),
    by rw [(processFeatures_id_spec wData).2]; decide⟩

/-- Deviation rule of a single built record: 0 when the looked-up average
is 0, the exact quotient otherwise. -/
theorem buildRecord_deviation (acs : ActCodeStats) (bas : BAStats) (i : ℕ)
    (row : RawTransaction) :
    ((buildRecord acs bas i row).actCodeAvgAmount = 0 →
        (buildRecord acs bas i row).deviationFromAvg = 0) ∧
      ((buildRecord acs bas i row).actCodeAvgAmount ≠ 0 →
        (buildRecord acs bas i row).deviationFromAvg =
          (buildRecord acs bas i row).amount / (buildRecord acs bas i row).actCodeAvgAmount) := by
  by_cases h : lookupAvg acs row.actCode = 0
  · simp [buildRecord, h]
  · simp [buildRecord, h]

/-- Claim C3: after pass-1 finalization every stored category aggregate
has a positive count and `average = totalAmount / count`; a pass-2 lookup
of an absent category yields 0; and each record's deviation ratio is
`amount / average` when the average is nonzero and 0 when it is 0 (so the
division is always guarded). -/
theorem aggregates_average_spec (data : List RawTransaction) :
    (∀ code s, lookupEntry (finalStats data) code = some s →
        0 < s.count ∧ s.average = s.totalAmount / (s.count : ℚ)) ∧
      (∀ code, lookupEntry (finalStats data) code = none →
        lookupAvg (finalStats data) code = 0) ∧
      (∀ r ∈ processFeatures data,
        (r.actCodeAvgAmount = 0 → r.deviationFromAvg = 0) ∧
          (r.actCodeAvgAmount ≠ 0 →
            r.deviationFromAvg = r.amount / r.actCodeAvgAmount)) := by
  refine ⟨?_, ?_, ?_⟩
  · intro code s h
    rw [finalStats, lookupEntry_finalizeAverages] at h
    rcases hv : lookupEntry (pass1 data).1 code with _ | v
    · rw [hv] at h
      simp at h
    · rw [hv, Option.map_some'] at h
      have h2 := Option.some.inj h
      subst h2
      constructor
      · simpa using statsPos_pass1 data code v hv
      · simp
  · intro code h
    simp [lookupAvg, h]
  · intro r hr
    rcases mem_processFeatures hr with ⟨i, hlt, _, _, hb⟩
    rw [hb]
    exact buildRecord_deviation _ _ _ _

/-- Pass-1 aggregate evaluation on the sample upload: category `X` sums
to 400 over 2 rows with finalized average 200. -/
theorem wStats_eval : lookupEntry (finalStats wData) "X" = some ⟨400, 2, 200⟩ := by
  have h0 : parseAmountField (some "100") = 100 := by
    rw [parseAmountField_eval _ (1, 100, 0, 0, 0) (by decide)]
    norm_num [ratOfParts]
  have h2 : parseAmountField (some "300") = 300 := by
    rw [parseAmountField_eval _ (1, 300, 0, 0, 0) (by decide)]
    norm_num [ratOfParts]
  have hs0 : skipRow ⟨"A", "m0", "X", some "100"⟩ = false := by decide
  have hs1 : skipRow ⟨"A", "m1", "", some "50"⟩ = true := by decide
  have hs2 : skipRow ⟨"A", "m2", "X", some "300"⟩ = false := by decide
  norm_num [finalStats, wData, pass1, pass1Step, bumpStat, bumpBA, bumpEntry, setEntry,
    lookupEntry, finalizeAverages, updStat, zeroStat, h0, h2, hs0, hs1, hs2]

/-- Witness for C3: the stored aggregate for category `X` of `wData`
satisfies the average invariant, and the record of row 2 (average 200)
has deviation `amount / average`. -/
theorem aggregates_average_spec_witness :
    (0 < (⟨400, 2, 200⟩ : Stat).count ∧
        (⟨400, 2, 200⟩ : Stat).average =
          (⟨400, 2, 200⟩ : Stat).totalAmount / ((⟨400, 2, 200⟩ : Stat).count : ℚ)) ∧
      wRec2.deviationFromAvg = wRec2.amount / wRec2.actCodeAvgAmount :=
  ⟨(aggregates_average_spec wData).1 "X" ⟨400, 2, 200⟩ wStats_eval,
    ((aggregates_average_spec wData).2.2 wRec2 (by rw [wData_eval]; simp)).2
      (by norm_num [wRec2])⟩

/-- Claim C10: every record surviving pass 2 finds its activity code in
the finalized aggregates and its business area in the frequency map with
frequency at least 1 (both passes share the same skip condition), so the
absent-category fallback for the average and the `|| 0` fallback for the
frequency are never exercised. -/
theorem lookups_never_default (data : List RawTransaction) :
    ∀ r ∈ processFeatures data,
      (∃ s, lookupEntry (finalStats data) r.actCode = some s ∧
          r.actCodeAvgAmount = s.average) ∧
        (∃ n, lookupEntry (baFreq data) r.BA = some n ∧ 1 ≤ n ∧
          r.baTransactionCount = n) := by
  intro r hr
  rcases mem_processFeatures hr with ⟨i, hlt, _, hs, hb⟩
  have hmem : data.get ⟨i, hlt⟩ ∈ data := List.get_mem _ _ _
  have hp := present_of_mem data ([], []) (data.get ⟨i, hlt⟩) hmem hs
  have hpass1 : data.foldl pass1Step ([], []) = pass1 data := rfl
  rw [hpass1] at hp
  rcases hv : lookupEntry (pass1 data).1 (data.get ⟨i, hlt⟩).actCode with _ | v
  · rw [hv] at hp
    simp at hp
  · rcases hn : lookupEntry (pass1 data).2 (data.get ⟨i, hlt⟩).BA with _ | n
    · rw [hn] at hp
      simp at hp
    · have hv2 : lookupEntry (pass1 data).1 ((data[i]).actCode) = some v := hv
      have hn2 : lookupEntry (pass1 data).2 ((data[i]).BA) = some n := hn
      constructor
      · refine ⟨{ v with average := v.totalAmount / (v.count : ℚ) }, ?_, ?_⟩
        · rw [hb]
          simp [buildRecord, finalStats, lookupEntry_finalizeAverages, hv2]
        · rw [hb]
          simp [buildRecord, lookupAvg, finalStats, lookupEntry_finalizeAverages, hv2]
      · refine ⟨n, ?_, ?_, ?_⟩
        · rw [hb]
          simp [buildRecord, baFreq, hn2]
        · rw [hn] at hp
          simpa using hp.2
        · rw [hb]
          simp [buildRecord, baFreq, hn2]

/-- Witness for C10: the record of `wData` row 2 finds both of its keys. -/
theorem lookups_never_default_witness :
    (∃ s, lookupEntry (finalStats wData) wRec2.actCode = some s ∧
        wRec2.actCodeAvgAmount = s.average) ∧
      (∃ n, lookupEntry (baFreq wData) wRec2.BA = some n ∧ 1 ≤ n ∧
        wRec2.baTransactionCount = n) :=
  lookups_never_default wData wRec2 (by rw [wData_eval]; simp)

/-- With no flagged record the selector's filter, hence its whole output,
is empty. -/
theorem candidates_empty {ts : List ProcessedTransaction}
    (h : ∀ t ∈ ts, t.isSuspiciousCandidate = false) : selectCandidates ts = [] := by
  have hf : ts.filter (fun t => t.isSuspiciousCandidate) = [] := by
    rw [List.filter_eq_nil_iff]
    intro t ht
    simp [h t ht]
  simp [selectCandidates, hf]

/-- Claim C4: the Candidate Selector returns exactly
`min 30 |flagged records|` records, each of them flagged, sorted
descending by deviation ratio (`devGE`), and never more than 30. -/
theorem selectCandidates_spec (ts : List ProcessedTransaction) :
    (selectCandidates ts).length =
        min 30 (ts.filter (fun t => t.isSuspiciousCandidate)).length ∧
      (∀ r ∈ selectCandidates ts, r.isSuspiciousCandidate = true) ∧
      List.Sorted devGE (selectCandidates ts) ∧
      (selectCandidates ts).length ≤ 30 := by
  have hperm := List.perm_insertionSort devGE (ts.filter (fun t => t.isSuspiciousCandidate))
  have hlen : (selectCandidates ts).length =
      min 30 (ts.filter (fun t => t.isSuspiciousCandidate)).length := by
    simp only [selectCandidates]
    rw [List.length_take, hperm.length_eq]
  refine ⟨hlen, ?_, ?_, ?_⟩
  · intro r hr
    have h1 : r ∈ (ts.filter (fun t => t.isSuspiciousCandidate)).insertionSort devGE :=
      List.mem_of_mem_take hr
    have h2 := hperm.mem_iff.mp h1
    exact (List.mem_filter.mp h2).2
  · exact (List.sorted_insertionSort devGE _).sublist (List.take_sublist _ _)
  · rw [hlen]
    exact Nat.min_le_left _ _

/-- Witness for C4: on `wTs` (two flagged records with deviations 2 and 6,
one unflagged) the selector returns both candidates, `cRecB` is flagged,
the output is sorted descending, and the bound holds. -/
theorem selectCandidates_spec_witness :
    (selectCandidates wTs).length =
        min 30 (wTs.filter (fun t => t.isSuspiciousCandidate)).length ∧
      cRecB.isSuspiciousCandidate = true ∧
      List.Sorted devGE (selectCandidates wTs) ∧
      (selectCandidates wTs).length ≤ 30 :=
  ⟨(selectCandidates_spec wTs).1,
    (selectCandidates_spec wTs).2.1 cRecB (by decide),
    (selectCandidates_spec wTs).2.2.1,
    (selectCandidates_spec wTs).2.2.2⟩

/-- Claim C7: on a processed sequence with no flagged record the scorer
stage returns the empty result with `callMade = false` — the external call
is never constructed or sent — and the outcome is the non-error `ok`
constructor, for every API key and every scorer oracle. -/
theorem analyze_no_candidates (ts : List ProcessedTransaction)
    (h : ∀ t ∈ ts, t.isSuspiciousCandidate = false) :
    ∀ (apiKey : Option String)
      (scorer : List ProcessedTransaction → Except String (List AIAnalysisResult)),
      analyzeFraudWithGemini apiKey scorer ts = ScorerOutcome.ok [] false := by
  intro apiKey scorer
  have hc : selectCandidates ts = [] := candidates_empty h
  simp [analyzeFraudWithGemini, hc]

/-- Witness for C7: the no-candidate sequence `wNone`, with a key present. -/
theorem analyze_no_candidates_witness :
    analyzeFraudWithGemini (some "key") wScorer wNone = ScorerOutcome.ok [] false :=
  analyze_no_candidates wNone (by decide) (some "key") wScorer

/-- Claim C9: with zero candidates the scorer stage succeeds with an empty
result even when the API credential is absent (the empty-candidate check
precedes the credential check), and a configuration error can only arise
when at least one flagged record exists. -/
theorem analyze_missing_key (ts : List ProcessedTransaction)
    (scorer : List ProcessedTransaction → Except String (List AIAnalysisResult)) :
    ((∀ t ∈ ts, t.isSuspiciousCandidate = false) →
        analyzeFraudWithGemini none scorer ts = ScorerOutcome.ok [] false) ∧
      (∀ msg, analyzeFraudWithGemini none scorer ts = ScorerOutcome.configError msg →
        ∃ t ∈ ts, t.isSuspiciousCandidate = true) := by
  constructor
  · intro h
    have hc : selectCandidates ts = [] := candidates_empty h
    simp [analyzeFraudWithGemini, hc]
  · intro msg h
    by_cases hc : (selectCandidates ts).length = 0
    · simp [analyzeFraudWithGemini, hc] at h
    · have hne : selectCandidates ts ≠ [] := by
        intro he
        rw [he] at hc
        simp at hc
      rcases List.exists_mem_of_ne_nil _ hne with ⟨c, hcmem⟩
      have h1 : c ∈ (ts.filter (fun t => t.isSuspiciousCandidate)).insertionSort devGE :=
        List.mem_of_mem_take hcmem
      have h2 := (List.perm_insertionSort devGE _).mem_iff.mp h1
      rcases List.mem_filter.mp h2 with ⟨hmem, hflag⟩
      exact ⟨c, hmem, by simpa using hflag⟩

/-- Witness for C9: `wNone` with a missing key still yields `ok [] false`,
and the configuration error on `wTs` (which the missing key produces)
implies a flagged record exists. -/
theorem analyze_missing_key_witness :
    analyzeFraudWithGemini none wScorer wNone = ScorerOutcome.ok [] false ∧
      ∃ t ∈ wTs, t.isSuspiciousCandidate = true :=
  ⟨(analyze_missing_key wNone wScorer).1 (by decide),
    (analyze_missing_key wTs wScorer).2
      "API Key not found. Please configure environment variables." (by decide)⟩

/-! ### Result-merger lemmas -/

theorem mergeMap_eq_some {pd : List ProcessedTransaction} {res : AIAnalysisResult}
    {f : FinalRecord} (h : mergeMap pd res = some f) :
    f.id = res.id ∧ f.fraudScore = res.fraudScore ∧ ∃ p ∈ pd, p.id = res.id := by
  rw [mergeMap] at h
  rcases hf : pd.find? (fun p => p.id == res.id) with _ | orig
  · rw [hf] at h
    simp at h
  · rw [hf] at h
    simp only [Option.map_some'] at h
    have h2 := Option.some.inj h
    refine ⟨by rw [← h2, mergeRecord], by rw [← h2, mergeRecord], ?_⟩
    have hp := List.find?_some hf
    have hmem := List.mem_of_find?_eq_some hf
    exact ⟨orig, hmem, by simpa using hp⟩

theorem mergeMap_exists {pd : List ProcessedTransaction} {res : AIAnalysisResult}
    (hp : ∃ p ∈ pd, p.id = res.id) : ∃ f, mergeMap pd res = some f := by
  rw [mergeMap]
  have hsome : (pd.find? (fun p => p.id == res.id)).isSome := by
    rw [List.find?_isSome]
    rcases hp with ⟨p, hmem, hid⟩
    exact ⟨p, hmem, by simpa using hid⟩
  rcases Option.isSome_iff_exists.mp hsome with ⟨orig, ho⟩
  exact ⟨mergeRecord orig res, by rw [ho, Option.map_some']⟩

theorem pairwise_filterMap_of {α β : Type} {R : α → α → Prop} {S : β → β → Prop}
    {f : α → Option β}
    (hf : ∀ a b a' b', f a = some a' → f b = some b' → R a b → S a' b') :
    ∀ {l : List α}, l.Pairwise R → (l.filterMap f).Pairwise S := by
  intro l
  induction l with
  | nil => intro _; simp
  | cons a t ih =>
    intro hp
    rcases List.pairwise_cons.mp hp with ⟨ha, ht⟩
    rcases hfa : f a with _ | a'
    · simpa [List.filterMap_cons, hfa] using ih ht
    · rw [List.filterMap_cons, hfa]
      refine List.pairwise_cons.mpr ⟨?_, ih ht⟩
      intro b' hb'
      rcases List.mem_filterMap.mp hb' with ⟨b, hb, hfb⟩
      exact hf a b a' b' hfa hfb (ha b hb)

/-- The id list of the merged output embeds, in order, into the id list of
the score-result input (each score result yields at most one output, with
the same id). -/
theorem filterMap_map_id_sublist (pd : List ProcessedTransaction) :
    ∀ l : List AIAnalysisResult,
      List.Sublist ((l.filterMap (mergeMap pd)).map (fun f => f.id))
        (l.map (fun a => a.id)) := by
  intro l
  induction l with
  | nil => simp
  | cons a t ih =>
    rcases hfa : mergeMap pd a with _ | f
    · rw [List.filterMap_cons, hfa]
      simp only [List.map_cons]
      exact List.Sublist.cons _ ih
    · rw [List.filterMap_cons, hfa]
      simp only [List.map_cons]
      rw [(mergeMap_eq_some hfa).1]
      exact List.Sublist.cons₂ _ ih

/-- Claim C5: for any processed sequence and any score sequence with
distinct ids (the scorer answers a subset of the submitted ids, in any
order), the merger output is no longer than the score sequence, every
output id occurs in both inputs, the output is sorted descending by fraud
score (`finGE`), and each id present in both inputs yields exactly one
merged record — score results matching no processed record are dropped. -/
theorem topRisky_merge_spec (pd : List ProcessedTransaction) (ar : List AIAnalysisResult)
    (hnd : (ar.map (fun a => a.id)).Nodup) :
    (topRiskyTransactions pd ar).length ≤ ar.length ∧
      (∀ f ∈ topRiskyTransactions pd ar,
        (∃ a ∈ ar, a.id = f.id) ∧ ∃ p ∈ pd, p.id = f.id) ∧
      List.Sorted finGE (topRiskyTransactions pd ar) ∧
      (∀ i : ℕ, (∃ a ∈ ar, a.id = i) → (∃ p ∈ pd, p.id = i) →
        ∃! f, f ∈ topRiskyTransactions pd ar ∧ f.id = i) := by
  by_cases har : ar.length = 0
  · have hnil : ar = [] := List.length_eq_zero.mp har
    subst hnil
    refine ⟨by simp [topRiskyTransactions], ?_, ?_, ?_⟩
    · intro f hf
      simp [topRiskyTransactions] at hf
    · simp [topRiskyTransactions, List.Sorted]
    · intro i hi
      rcases hi with ⟨a, ha, _⟩
      cases ha
  · have htr : topRiskyTransactions pd ar =
        (ar.insertionSort scoreGE).filterMap (mergeMap pd) := by
      simp [topRiskyTransactions, har]
    have hperm := List.perm_insertionSort scoreGE ar
    refine ⟨?_, ?_, ?_, ?_⟩
    · rw [htr]
      calc ((ar.insertionSort scoreGE).filterMap (mergeMap pd)).length
          ≤ (ar.insertionSort scoreGE).length := List.length_filterMap_le _ _
        _ = ar.length := hperm.length_eq
    · intro f hf
      rw [htr] at hf
      rcases List.mem_filterMap.mp hf with ⟨res, hres, hsome⟩
      rcases mergeMap_eq_some hsome with ⟨hid, _, hp⟩
      constructor
      · exact ⟨res, hperm.mem_iff.mp hres, hid.symm⟩
      · rcases hp with ⟨p, hpm, hpe⟩
        exact ⟨p, hpm, by rw [hpe, hid]⟩
    · rw [htr]
      refine pairwise_filterMap_of ?_ (List.sorted_insertionSort scoreGE ar)
      intro a b a' b' ha hb hR
      have h1 := (mergeMap_eq_some ha).2.1
      have h2 := (mergeMap_eq_some hb).2.1
      show b'.fraudScore ≤ a'.fraudScore
      rw [h1, h2]
      exact hR
    · intro i hai hpi
      rcases hai with ⟨a, haar, haid⟩
      have hasort : a ∈ ar.insertionSort scoreGE := hperm.mem_iff.mpr haar
      rcases @mergeMap_exists pd a (by rw [haid]; exact hpi) with ⟨f, hfsome⟩
      have hfmem : f ∈ topRiskyTransactions pd ar := by
        rw [htr]
        exact List.mem_filterMap.mpr ⟨a, hasort, hfsome⟩
      have hfid : f.id = i := by rw [(mergeMap_eq_some hfsome).1, haid]
      have hndout : ((topRiskyTransactions pd ar).map (fun f => f.id)).Nodup := by
        rw [htr]
        refine List.Sublist.nodup (filterMap_map_id_sublist pd _) ?_
        exact ((hperm.map (fun a => a.id)).nodup_iff).mpr hnd
      refine ⟨f, ⟨hfmem, hfid⟩, ?_⟩
      intro g hg
      exact List.inj_on_of_nodup_map hndout hg.1 hfmem (by rw [hg.2, hfid])

/-- Witness for C5: three score results (ids 0, 9, 1; id 9 unmatched)
against the three processed records of `wTs`. -/
theorem topRisky_merge_spec_witness :
    (topRiskyTransactions wTs wScores).length ≤ wScores.length ∧
      List.Sorted finGE (topRiskyTransactions wTs wScores) ∧
      ∃! f, f ∈ topRiskyTransactions wTs wScores ∧ f.id = 0 :=
  ⟨(topRisky_merge_spec wTs wScores (by decide)).1,
    (topRisky_merge_spec wTs wScores (by decide)).2.2.1,
    (topRisky_merge_spec wTs wScores (by decide)).2.2.2 0 (by decide) (by decide)⟩

/-- Claim C6: amount parsing is total — for a non-falsy field it is
exactly comma-stripping followed by numeric conversion, the stripped text
contains no comma, a missing or empty field yields 0, and any text whose
stripped form has no numeric prefix (the `NaN` case) yields 0; no input
raises. -/
theorem parseAmount_spec :
    (∀ s : String, s ≠ "" →
        parseAmountField (some s) = jsOr0 (jsParseFloat (stripCommas s))) ∧
      (∀ s : String, ',' ∉ (stripCommas s).data) ∧
      parseAmountField none = 0 ∧
      parseAmountField (some "") = 0 ∧
      (∀ s : String, jsParseFloat (stripCommas s) = none → parseAmountField (some s) = 0) := by
  refine ⟨?_, ?_, ?_, ?_, ?_⟩
  · intro s hs
    simp [parseAmountField, amountText, hs]
  · intro s
    intro hmem
    rw [stripCommas] at hmem
    rcases List.mem_filter.mp hmem with ⟨_, hkeep⟩
    simp at hkeep
  · rw [parseAmountField_eval none (1, 0, 0, 0, 0) (by decide)]
    norm_num [ratOfParts]
  · rw [parseAmountField_eval (some "") (1, 0, 0, 0, 0) (by decide)]
    norm_num [ratOfParts]
  · intro s h
    by_cases hs : s = ""
    · subst hs
      rw [parseAmountField_eval (some "") (1, 0, 0, 0, 0) (by decide)]
      norm_num [ratOfParts]
    · rw [parseAmountField, amountText]
      simp [hs, h, jsOr0]

/-- Witness for C6: a comma-grouped amount follows the strip-then-convert
path, and an unparsable amount resolves to 0. -/
theorem parseAmount_spec_witness :
    parseAmountField (some "1,000") = jsOr0 (jsParseFloat (stripCommas "1,000")) ∧
      parseAmountField (some "abc") = 0 :=
  ⟨parseAmount_spec.1 "1,000" (by decide),
    parseAmount_spec.2.2.2.2 "abc" (by decide)⟩

/-- Claim C8 fails on the code: `topRiskyTransactions` sorts the
`analysisResults` state array in place and `scatterData` sorts the
`processedData` state array in place (JavaScript `Array.prototype.sort`
mutates its receiver), so on a state whose arrays are not already in the
respective descending orders both memoized views change the state they
consume.  Evaluated here at the concrete state `exState`. -/
theorem sort_mutates_state :
    (scatterDataRun exState).2.processedData = [cRecB, cRecA] ∧
      exState.processedData = [cRecA, cRecB] ∧
      (topRiskyRun exState).2.analysisResults = [wScore1, wScore0] ∧
      exState.analysisResults = [wScore0, wScore1] ∧
      decide ((scatterDataRun exState).2 = exState) = false ∧
      decide ((topRiskyRun exState).2 = exState) = false := by
  decide
